import Mathlib

/-!
Shallow embedding of the gomcache client (server selection and the
UDP get / TCP delete transport paths) together with proofs of the
specification's properties.  Bytes are modelled as natural numbers
below 256, byte strings as lists of naturals, and machine words as
naturals reduced modulo two to the word size where it matters.
-/

set_option maxRecDepth 20000

namespace Gomcache

/-- One round of the reflected CRC-32 bit loop: shift right by one and
conditionally xor the reversed IEEE polynomial 0xEDB88320. -/
def crc32Round (crc : Nat) : Nat :=
  if crc % 2 = 1 then Nat.xor (crc / 2) 0xEDB88320 else crc / 2

/-- Iterate the CRC-32 bit round a given number of times. -/
def crc32Bits : Nat → Nat → Nat
  | crc, 0 => crc
  | crc, k + 1 => crc32Bits (crc32Round crc) k

/-- Fold one byte into a running CRC-32 state (hash/crc32 ChecksumIEEE,
reflected form: xor the byte into the low bits, then eight bit rounds). -/
def crc32Update (crc b : Nat) : Nat :=
  crc32Bits (Nat.xor crc b) 8

/-- CRC-32 with the IEEE polynomial over a byte sequence, as computed by
Go's crc32.ChecksumIEEE: initial state 0xFFFFFFFF, final xor 0xFFFFFFFF. -/
def crc32 (data : List Nat) : Nat :=
  Nat.xor (data.foldl crc32Update 0xFFFFFFFF) 0xFFFFFFFF

/-- Address value produced by newStaticAddr: a network kind and the
canonical string form, cached from the resolved net.Addr. -/
structure Addr where
  ntw : String
  str : String
deriving DecidableEq, Repr

/-- Error returned by ServerList.Select when no servers are configured
(the ErrNoServers sentinel). -/
inductive SelectErr where
  | noServers
deriving DecidableEq, Repr

/-- ServerList.Select from the source, with the buffer taken from
keyBufPool made explicit: copy(buf, key) overwrites the first
n = min(len(buf), len(key)) bytes of the recycled buffer, then
crc32.ChecksumIEEE runs over buf[:n] and the result is reduced modulo
the number of addresses.  Go's int is 64-bit here, so int(hash) is
nonnegative and % agrees with Nat.mod. -/
def selectBuf (addrs : List Addr) (key buf : List Nat) : Except SelectErr Addr :=
  match addrs with
  | [] => .error .noServers
  | [a] => .ok a
  | a :: b :: rest =>
      let n := min buf.length key.length
      let bufAfterCopy := key.take n ++ buf.drop n
      let hash := crc32 (bufAfterCopy.take n)
      .ok ((a :: b :: rest).get ⟨hash % (a :: b :: rest).length, Nat.mod_lt _ (by simp)⟩)

/-- A fresh buffer from keyBufPool.New: 256 zero bytes (make([]byte, 256)). -/
def poolNewBuf : List Nat := List.replicate 256 0

/-- ServerList.Select run with a fresh pool buffer. -/
def select (addrs : List Addr) (key : List Nat) : Except SelectErr Addr :=
  selectBuf addrs key poolNewBuf

/-- Byte list of an ASCII string (Go []byte conversion for ASCII data). -/
def toB (s : String) : List Nat :=
  s.data.map Char.toNat

/-- The protocol line terminator CRLF. -/
def crlfB : List Nat := toB "\r\n"

/-- The end-of-response sentinel line END CRLF (resultEnd). -/
def resultEndB : List Nat := toB "END\r\n"

/-- The VALUE response keyword. -/
def valueMarkB : List Nat := toB "VALUE"

/-- The NOT_FOUND response line (resultNotFound). -/
def resultNotFoundB : List Nat := toB "NOT_FOUND\r\n"

/-- The DELETED response line (resultDeleted). -/
def resultDeletedB : List Nat := toB "DELETED\r\n"

/-- bytes.Contains: does the pattern occur as a contiguous run of the
byte string? -/
def containsSeq (pat : List Nat) : List Nat → Bool
  | [] => pat.isEmpty
  | x :: xs => pat.isPrefixOf (x :: xs) || containsSeq pat xs

/-- bytes.Split on the two-byte separator CRLF: leftmost, non-overlapping
occurrences split the string; n occurrences yield n+1 parts. -/
def splitCRLF : List Nat → List (List Nat)
  | [] => [[]]
  | [x] => [[x]]
  | x :: y :: rest =>
      if x = 13 ∧ y = 10 then [] :: splitCRLF rest
      else
        match splitCRLF (y :: rest) with
        | l :: ls => (x :: l) :: ls
        | [] => [[x]]

/-- Go slice expression b[lo:hi]: defined (some) exactly when
lo ≤ hi ≤ len(b), in which case it is the bytes lo..hi-1; otherwise the
program aborts with a slice-bounds panic (none). -/
def goSlice (b : List Nat) (lo hi : Nat) : Option (List Nat) :=
  if lo ≤ hi ∧ hi ≤ b.length then some ((b.take hi).drop lo) else none

/-- Size of the fixed receive buffer in Client.Get (make([]byte, 90000)). -/
def udpBufSize : Nat := 90000

/-- Outcome of the UDP reassembly loop in Client.Get. -/
inductive LoopResult where
  | sliceAbort : LoopResult
  | readFail : LoopResult
  | done : List Nat → Nat → LoopResult
deriving DecidableEq, Repr

/-- The reassembly loop of Client.Get.  Each successful conn.Read fills
the first n bytes of the 90000-byte buffer with the next datagram (the
rest of the buffer holds stale bytes, modelled as zeros; they are never
read).  The loop appends buffer[8:n] to the accumulator and stops once
the accumulator contains the END sentinel; running out of datagrams is a
read error, and buffer[8:n] with n < 8 is a slice-bounds abort.  The
second component of done counts the receives performed. -/
def getLoop : List (List Nat) → List Nat → Nat → LoopResult
  | [], _, _ => .readFail
  | d :: rest, acc, count =>
      match goSlice (d ++ List.replicate (udpBufSize - d.length) 0) 8 d.length with
      | none => .sliceAbort
      | some chunk =>
          let acc2 := acc ++ chunk
          if containsSeq resultEndB acc2 then .done acc2 (count + 1)
          else getLoop rest acc2 (count + 1)

/-- Memcached item.  Client.Get fills only Key and Value; Flags and
Expiration keep their Go zero values. -/
structure Item where
  key : List Nat
  value : List Nat
  flags : Nat
  expiration : Int
deriving DecidableEq, Repr

/-- Result of Client.Get.  Distinct constructors model the distinct Go
error values: the UDP-mode guard error, a selection failure, dial/write/
read failures, the ErrCacheMiss sentinel, the unexpected-response error
carrying the raw bytes, and a slice-bounds panic (abort). -/
inductive GetOutcome where
  | ok : Item → GetOutcome
  | errNotUDP : GetOutcome
  | errSelect : SelectErr → GetOutcome
  | errDial : GetOutcome
  | errWrite : GetOutcome
  | errRead : GetOutcome
  | errCacheMiss : GetOutcome
  | errUnexpected : List Nat → GetOutcome
  | abort : GetOutcome
deriving DecidableEq, Repr

/-- Response parsing at the end of Client.Get: a VALUE-prefixed buffer
with at least two CRLF-separated lines yields an Item whose value is the
second line; a NOT_FOUND-prefixed buffer is a cache miss; anything else
(including a VALUE prefix with fewer than two lines, which falls through
in the source) is the unexpected-response error. -/
def parseGetResponse (key raw : List Nat) : GetOutcome :=
  if valueMarkB.isPrefixOf raw then
    let lines := splitCRLF raw
    if h : 2 ≤ lines.length then
      .ok ⟨key, lines.get ⟨1, by omega⟩, 0, 0⟩
    else .errUnexpected raw
  else if resultNotFoundB.isPrefixOf raw then .errCacheMiss
  else .errUnexpected raw

/-- Client state relevant to Get: the ServerList it holds and the UseUDP
flag.  (Timeout and the mutex have no bearing on the modelled claims.) -/
structure Client where
  selectorAddrs : List Addr
  useUDP : Bool

/-- Environment for one Client.Get call: whether resolve+dial and the
command write succeed, and the sequence of datagrams the successive
conn.Read calls return (reading past the end fails, e.g. by timeout). -/
structure UDPEnv where
  dialOk : Bool
  writeOk : Bool
  datagrams : List (List Nat)

/-- Client.Get: the UseUDP guard runs first, before server selection,
connection, or any I/O; then connectUDP (selection, then resolve+dial),
the request write, the reassembly loop, and response parsing. -/
def clientGet (c : Client) (env : UDPEnv) (key : List Nat) : GetOutcome :=
  if !c.useUDP then .errNotUDP
  else
    match select c.selectorAddrs key with
    | .error e => .errSelect e
    | .ok _ =>
      if !env.dialOk then .errDial
      else if !env.writeOk then .errWrite
      else
        match getLoop env.datagrams [] 0 with
        | .sliceAbort => .abort
        | .readFail => .errRead
        | .done raw _ => parseGetResponse key raw

/-- Go error values Client.Delete can return, plus the ErrCacheMiss
sentinel from the package taxonomy.  itemNotFound models the fresh
error fmt.Errorf("item not found"), a value distinct from every
sentinel. -/
inductive GoErr where
  | cacheMiss : GoErr
  | serverError : GoErr
  | itemNotFound : GoErr
  | unexpected : List Nat → GoErr
deriving DecidableEq, Repr

/-- Response handling of Client.Delete: a failed line read is
ErrServerError; DELETED CRLF succeeds; NOT_FOUND CRLF returns the fresh
item-not-found error; any other line is the unexpected-response error. -/
def deleteRespond : Option (List Nat) → Except GoErr Unit
  | none => .error .serverError
  | some resp =>
      if resp = resultDeletedB then .ok ()
      else if resp = resultNotFoundB then .error .itemNotFound
      else .error (.unexpected resp)

/-- Checks whether a character occurs in a string; this is
strings.Contains specialised to the one-character needles "/" and ":"
used by SetServers. -/
def strContainsChar (s : String) (c : Char) : Bool :=
  s.data.contains c

/-- External address resolution (net.ResolveUnixAddr, net.ResolveUDPAddr
and net.ResolveTCPAddr), already composed with newStaticAddr: these are
platform calls, so the embedding abstracts them as an environment. -/
structure ResolveEnv where
  resolveUnix : String → Except String Addr
  resolveUDP : String → Except String Addr
  resolveTCP : String → Except String Addr

/-- Per-endpoint classification in SetServers: a string containing "/"
resolves as a Unix socket; one containing ":" is tried as UDP and then,
on failure, as TCP; otherwise TCP. -/
def resolveServer (env : ResolveEnv) (server : String) : Except String Addr :=
  if strContainsChar server (Char.ofNat 47) then env.resolveUnix server
  else if strContainsChar server (Char.ofNat 58) then
    match env.resolveUDP server with
    | .ok a => .ok a
    | .error _ => env.resolveTCP server
  else env.resolveTCP server

/-- The resolution loop of SetServers: resolve the endpoints in order
and stop at the first failure, returning its error. -/
def resolveLoop (env : ResolveEnv) : List String → Except String (List Addr)
  | [] => .ok []
  | s :: rest =>
      match resolveServer env s with
      | .error e => .error e
      | .ok a =>
          match resolveLoop env rest with
          | .error e => .error e
          | .ok as => .ok (a :: as)

/-- Mutable state of a ServerList: its address sequence. -/
structure ServerListState where
  addrs : List Addr
deriving DecidableEq, Repr

/-- ServerList.SetServers: resolve every endpoint first; on any failure
return the error without touching the state, otherwise replace the whole
address sequence in one assignment. -/
def setServers (env : ResolveEnv) (st : ServerListState) (servers : List String) :
    ServerListState × Option String :=
  match resolveLoop env servers with
  | .error e => (st, some e)
  | .ok naddr => (⟨naddr⟩, none)

/-- ServerList.Each: visit the addresses in order, stopping at and
propagating the first callback error. -/
def each {ε : Type} (addrs : List Addr) (f : Addr → Except ε Unit) : Except ε Unit :=
  match addrs with
  | [] => .ok ()
  | a :: rest =>
      match f a with
      | .error e => .error e
      | .ok _ => each rest f

/-- Concatenated header-stripped payload of a datagram sequence. -/
def stripCat (ds : List (List Nat)) : List Nat :=
  (ds.map (fun d => d.drop 8)).flatten

/-- The specification's literal reading of Select for two or more
addresses.  Modelled from the spec: CRC-32 over all raw bytes of the
key, reduced modulo the address count; stated only to be compared with
the source-derived selectBuf. -/
def selectSpecFullKey (addrs : List Addr) (key : List Nat) : Except SelectErr Addr :=
  match addrs with
  | [] => .error .noServers
  | [a] => .ok a
  | a :: b :: rest =>
      .ok ((a :: b :: rest).get ⟨crc32 key % (a :: b :: rest).length, Nat.mod_lt _ (by simp)⟩)

/-- Concrete addresses for counterexamples and witnesses. -/
def addrA : Addr := ⟨"tcp", "10.0.0.1:11211"⟩

/-- Second concrete address. -/
def addrB : Addr := ⟨"tcp", "10.0.0.2:11211"⟩

/-- A 257-byte key whose CRC-32 differs in parity from the CRC-32 of its
first 256 bytes, so truncation changes the selected index mod 2. -/
def longKeyC1 : List Nat := List.replicate 256 97 ++ [4]

deriving instance DecidableEq for Except

lemma take_append_take (n : Nat) (key l2 : List Nat) (h : n ≤ key.length) :
    (key.take n ++ l2).take n = key.take n :=
  List.take_left' (by rw [List.length_take]; exact Nat.min_eq_left h)

lemma take_min_length (l : List Nat) (n : Nat) : l.take (min n l.length) = l.take n := by
  rcases Nat.le_total n l.length with h | h
  · rw [Nat.min_eq_left h]
  · rw [Nat.min_eq_right h, List.take_length, List.take_of_length_le h]

lemma selectBuf_cons₂ (a b : Addr) (rest : List Addr) (key buf : List Nat)
    (hb : buf.length = 256) :
    selectBuf (a :: b :: rest) key buf =
      Except.ok ((a :: b :: rest).get
        ⟨crc32 (key.take 256) % (rest.length + 2), Nat.mod_lt _ (by omega)⟩) := by
  have hmle : min buf.length key.length ≤ key.length := Nat.min_le_right _ _
  have h1 : (key.take (min buf.length key.length) ++
      buf.drop (min buf.length key.length)).take (min buf.length key.length) =
      key.take 256 := by
    rw [take_append_take _ _ _ hmle, hb, take_min_length]
  simp [selectBuf, h1]

lemma length_poolNewBuf : poolNewBuf.length = 256 := by
  simp [poolNewBuf]

/-- C7: Select with zero configured addresses fails with the no-servers
error and returns no address, for every key and every pool buffer. -/
theorem select_empty_no_servers (key buf : List Nat) :
    selectBuf [] key buf = Except.error SelectErr.noServers ∧
    select [] key = Except.error SelectErr.noServers :=
  ⟨rfl, rfl⟩

/-- C8: with exactly one configured address, Select returns that address
unconditionally, for every key and every pool buffer; the single-address
branch returns before any hashing, so the result does not depend on the
key at all. -/
theorem select_single_addr (a : Addr) (key buf : List Nat) :
    selectBuf [a] key buf = Except.ok a ∧ select [a] key = Except.ok a :=
  ⟨rfl, rfl⟩

/-- C4: Select is a deterministic pure function of the configuration
snapshot and the key: for one or more configured addresses, two calls
with the same key agree even though the recycled pool buffers they draw
may hold different stale bytes, and the call returns an address from the
configured list. -/
theorem select_deterministic (addrs : List Addr) (key buf1 buf2 : List Nat)
    (h : 1 ≤ addrs.length) (hb1 : buf1.length = 256) (hb2 : buf2.length = 256) :
    selectBuf addrs key buf1 = selectBuf addrs key buf2 ∧
    ∃ a, a ∈ addrs ∧ selectBuf addrs key buf1 = Except.ok a := by
  match addrs with
  | [] => simp at h
  | [a] => exact ⟨rfl, a, by simp, rfl⟩
  | a :: b :: rest =>
      rw [selectBuf_cons₂ a b rest key buf1 hb1, selectBuf_cons₂ a b rest key buf2 hb2]
      exact ⟨rfl, _, List.get_mem _ _ _, rfl⟩

/-- Witness for select_deterministic at a concrete configuration, key
and pair of pool buffers. -/
theorem select_deterministic_witness :
    (1 ≤ ([addrA, addrB] : List Addr).length ∧
      (List.replicate 256 0).length = 256 ∧ (List.replicate 256 5).length = 256) ∧
    (selectBuf [addrA, addrB] [1, 2, 3] (List.replicate 256 0) =
        selectBuf [addrA, addrB] [1, 2, 3] (List.replicate 256 5) ∧
      ∃ a, a ∈ ([addrA, addrB] : List Addr) ∧
        selectBuf [addrA, addrB] [1, 2, 3] (List.replicate 256 0) = Except.ok a) :=
  ⟨⟨by simp, by simp, by simp⟩,
    select_deterministic [addrA, addrB] [1, 2, 3] _ _ (by simp) (by simp) (by simp)⟩

/-- A 32-byte slice of the long key, used to stage the CRC computation
so that each evaluation step stays shallow. -/
def chunk32 : List Nat := List.replicate 32 97

lemma crcStage1 : List.foldl crc32Update 4294967295 chunk32 = 894363784 := by decide

lemma crcStage2 : List.foldl crc32Update 894363784 chunk32 = 1984666282 := by decide

lemma crcStage3 : List.foldl crc32Update 1984666282 chunk32 = 2437089519 := by decide

lemma crcStage4 : List.foldl crc32Update 2437089519 chunk32 = 248826227 := by decide

lemma crcStage5 : List.foldl crc32Update 248826227 chunk32 = 3075086887 := by decide

lemma crcStage6 : List.foldl crc32Update 3075086887 chunk32 = 3259522210 := by decide

lemma crcStage7 : List.foldl crc32Update 3259522210 chunk32 = 3953830962 := by decide

lemma crcStage8 : List.foldl crc32Update 3953830962 chunk32 = 1333971366 := by decide

lemma repl256_chunks : (List.replicate 256 97 : List Nat) =
    chunk32 ++ chunk32 ++ chunk32 ++ chunk32 ++ chunk32 ++ chunk32 ++ chunk32 ++ chunk32 := by
  decide

lemma crc_rep256 : crc32 (List.replicate 256 97) = Nat.xor 1333971366 4294967295 := by
  rw [crc32, repl256_chunks, List.foldl_append, List.foldl_append, List.foldl_append,
    List.foldl_append, List.foldl_append, List.foldl_append, List.foldl_append,
    crcStage1, crcStage2, crcStage3, crcStage4, crcStage5, crcStage6, crcStage7, crcStage8]

lemma crc_longKeyC1 : crc32 longKeyC1 = Nat.xor 949436429 4294967295 := by
  rw [crc32, longKeyC1, repl256_chunks, List.foldl_append, List.foldl_append,
    List.foldl_append, List.foldl_append, List.foldl_append, List.foldl_append,
    List.foldl_append, List.foldl_append, crcStage1, crcStage2, crcStage3, crcStage4,
    crcStage5, crcStage6, crcStage7, crcStage8]
  decide

lemma take256_longKeyC1 : longKeyC1.take 256 = List.replicate 256 97 := by
  rw [longKeyC1]
  exact List.take_left' (by simp)

lemma get_idx0 (a b : Addr) (rest : List Addr) (i : Nat) (p : i < (a :: b :: rest).length)
    (h : i = 0) : (a :: b :: rest).get ⟨i, p⟩ = a := by
  subst h; rfl

lemma get_idx1 (a b : Addr) (rest : List Addr) (i : Nat) (p : i < (a :: b :: rest).length)
    (h : i = 1) : (a :: b :: rest).get ⟨i, p⟩ = b := by
  subst h; rfl

/-- C1 counterexample: on a two-address configuration and a 257-byte
key, the source Select (which hashes only the 256 bytes copied into the
pool buffer) picks a different address than the spec's words (CRC-32
over all raw bytes of the key) require. -/
theorem select_full_key_cex :
    select [addrA, addrB] longKeyC1 ≠ selectSpecFullKey [addrA, addrB] longKeyC1 := by
  have h1 : select [addrA, addrB] longKeyC1 = Except.ok addrB := by
    rw [select, selectBuf_cons₂ addrA addrB [] longKeyC1 poolNewBuf length_poolNewBuf]
    refine congrArg Except.ok (get_idx1 addrA addrB [] _ _ ?_)
    rw [take256_longKeyC1, crc_rep256]
    decide
  have h2 : selectSpecFullKey [addrA, addrB] longKeyC1 = Except.ok addrA := by
    show Except.ok (([addrA, addrB] : List Addr).get _) = _
    refine congrArg Except.ok (get_idx0 addrA addrB [] _ _ ?_)
    rw [crc_longKeyC1]
    decide
  rw [h1, h2]
  decide

/-- C1 amended: for two or more addresses Select computes CRC-32 over
the first min(256, len(key)) bytes of the key (the bytes copied into the
256-byte pool buffer), reduces it modulo the address count, and returns
the address at that index. -/
theorem select_crc_truncated (addrs : List Addr) (key : List Nat) (h : 2 ≤ addrs.length) :
    select addrs key =
      Except.ok (addrs.get ⟨crc32 (key.take 256) % addrs.length, Nat.mod_lt _ (by omega)⟩) := by
  match addrs with
  | [] => simp at h
  | [a] => simp at h
  | a :: b :: rest =>
      rw [select, selectBuf_cons₂ a b rest key poolNewBuf length_poolNewBuf]
      rfl

/-- Witness for select_crc_truncated at a concrete configuration and key. -/
theorem select_crc_truncated_witness :
    2 ≤ ([addrA, addrB] : List Addr).length ∧
    select [addrA, addrB] [107] =
      Except.ok (([addrA, addrB] : List Addr).get
        ⟨crc32 (([107] : List Nat).take 256) % ([addrA, addrB] : List Addr).length,
          Nat.mod_lt _ (by decide)⟩) :=
  ⟨by decide, select_crc_truncated [addrA, addrB] [107] (by decide)⟩

/-- C9: Select hashes at most the first 256 bytes of the key: on any
configuration of two or more addresses, keys of length at least 256
agreeing on their first 256 bytes are sent to the same address. -/
theorem select_ignores_tail (addrs : List Addr) (k1 k2 : List Nat)
    (h : 2 ≤ addrs.length) (_h1 : 256 ≤ k1.length) (_h2 : 256 ≤ k2.length)
    (heq : k1.take 256 = k2.take 256) :
    select addrs k1 = select addrs k2 := by
  match addrs with
  | [] => simp at h
  | [a] => simp at h
  | a :: b :: rest =>
      rw [select, select, selectBuf_cons₂ a b rest k1 poolNewBuf length_poolNewBuf,
        selectBuf_cons₂ a b rest k2 poolNewBuf length_poolNewBuf, heq]

/-- Witness for select_ignores_tail: a 256-byte key and a 257-byte key
sharing the first 256 bytes select the same address. -/
theorem select_ignores_tail_witness :
    (2 ≤ ([addrA, addrB] : List Addr).length ∧
      256 ≤ (List.replicate 256 97 : List Nat).length ∧ 256 ≤ longKeyC1.length ∧
      (List.replicate 256 97 : List Nat).take 256 = longKeyC1.take 256) ∧
    select [addrA, addrB] (List.replicate 256 97) = select [addrA, addrB] longKeyC1 :=
  ⟨⟨by decide, by simp, by decide, by decide⟩,
    select_ignores_tail [addrA, addrB] _ _ (by decide) (by simp) (by decide) (by decide)⟩

/-- C5: with the UDP mode flag disabled, Get fails with the
configuration-mismatch error immediately: the result is the same for
every selector configuration and every network environment, so no
server selection, connection or I/O can have influenced it, and the
client (which Get never mutates) is unchanged. -/
theorem get_requires_udp (addrs : List Addr) (env : UDPEnv) (key : List Nat) :
    clientGet ⟨addrs, false⟩ env key = GetOutcome.errNotUDP :=
  rfl

/-- C6 counterexample: on the NOT_FOUND response line, Delete does not
return the ErrCacheMiss sentinel of the package's error taxonomy. -/
theorem delete_not_found_not_cache_miss :
    deleteRespond (some resultNotFoundB) ≠ Except.error GoErr.cacheMiss := by
  decide

/-- C6 amended: on the NOT_FOUND response line Delete returns the fresh
error fmt.Errorf with message item not found, which is distinct from the
generic unexpected-response error (and also not the ErrCacheMiss
sentinel); the DELETED response line yields success. -/
theorem delete_not_found_distinct :
    deleteRespond (some resultNotFoundB) = Except.error GoErr.itemNotFound ∧
    deleteRespond (some resultDeletedB) = Except.ok () ∧
    (∀ raw, GoErr.itemNotFound ≠ GoErr.unexpected raw) ∧
    GoErr.itemNotFound ≠ GoErr.cacheMiss :=
  ⟨by decide, by decide, fun raw => by simp, by decide⟩

/-- C10 counterexample: a received datagram shorter than the 8-byte
header (here an empty datagram) makes the slice expression buffer[8:n]
go out of range, and Get aborts with a slice-bounds panic. -/
theorem get_short_datagram_aborts :
    clientGet ⟨[addrA], true⟩ ⟨true, true, [[]]⟩ [] = GetOutcome.abort := by
  decide

lemma goSlice_datagram {d : List Nat} (h8 : 8 ≤ d.length) (hle : d.length ≤ udpBufSize) :
    goSlice (d ++ List.replicate (udpBufSize - d.length) 0) 8 d.length =
      some (d.drop 8) := by
  unfold goSlice
  have hlen : (d ++ List.replicate (udpBufSize - d.length) 0).length = udpBufSize := by
    simp only [List.length_append, List.length_replicate]
    omega
  rw [if_pos ⟨h8, by rw [hlen]; exact hle⟩, List.take_left]

/-- C10 amended: the slice buffer[8:n] is within bounds only under the
additional condition that every received datagram carries at least the
8-byte header: if every datagram length n satisfies 8 ≤ n ≤ 90000, the
reassembly loop never aborts with an out-of-range access, while a
shorter read aborts (see the counterexample). -/
theorem getLoop_no_abort (ds : List (List Nat)) (acc : List Nat) (c : Nat)
    (h : ∀ d ∈ ds, 8 ≤ d.length ∧ d.length ≤ udpBufSize) :
    getLoop ds acc c ≠ LoopResult.sliceAbort := by
  induction ds generalizing acc c with
  | nil => simp [getLoop]
  | cons d rest ih =>
      have hd := h d (by simp)
      rw [getLoop, goSlice_datagram hd.1 hd.2]
      dsimp only
      split
      · intro hcontra; cases hcontra
      · exact ih _ _ (fun d2 hd2 => h d2 (List.mem_cons_of_mem _ hd2))

/-- Witness for getLoop_no_abort on a concrete datagram sequence. -/
theorem getLoop_no_abort_witness :
    (∀ d ∈ ([[0, 0, 0, 0, 0, 0, 0, 0]] : List (List Nat)),
      8 ≤ d.length ∧ d.length ≤ udpBufSize) ∧
    getLoop [[0, 0, 0, 0, 0, 0, 0, 0]] [] 0 ≠ LoopResult.sliceAbort :=
  ⟨by decide, getLoop_no_abort [[0, 0, 0, 0, 0, 0, 0, 0]] [] 0 (by decide)⟩

/-- C3: when SetServers fails because an endpoint does not resolve, the
selector state is returned untouched, so every later Select call (under
any pool buffer) and every later Each call behaves exactly as before the
failed call. -/
theorem setServers_failure_atomic (env : ResolveEnv) (st st2 : ServerListState)
    (servers : List String) (e : String)
    (h : setServers env st servers = (st2, some e)) :
    st2.addrs = st.addrs ∧
    (∀ key buf, selectBuf st2.addrs key buf = selectBuf st.addrs key buf) ∧
    (∀ (ε : Type) (f : Addr → Except ε Unit), each st2.addrs f = each st.addrs f) := by
  unfold setServers at h
  cases hr : resolveLoop env servers with
  | error e2 =>
      rw [hr] at h
      injection h with h1 h2
      subst h1
      exact ⟨rfl, fun _ _ => rfl, fun _ _ => rfl⟩
  | ok naddr =>
      rw [hr] at h
      injection h with h1 h2
      cases h2

/-- An environment whose resolvers all fail, for the witness below. -/
def envFail : ResolveEnv :=
  ⟨fun _ => .error "unix", fun _ => .error "udp", fun _ => .error "tcp"⟩

/-- A configured one-address selector state, for the witness below. -/
def st0 : ServerListState := ⟨[addrA]⟩

/-- Witness for setServers_failure_atomic: a concrete failing call
leaves the concrete state intact. -/
theorem setServers_failure_atomic_witness :
    setServers envFail st0 ["10.0.0.9:1"] = (st0, some "tcp") ∧
    (st0.addrs = st0.addrs ∧
      (∀ key buf, selectBuf st0.addrs key buf = selectBuf st0.addrs key buf) ∧
      (∀ (ε : Type) (f : Addr → Except ε Unit), each st0.addrs f = each st0.addrs f)) :=
  ⟨by decide, setServers_failure_atomic envFail st0 st0 ["10.0.0.9:1"] "tcp" (by decide)⟩

lemma stripCat_nil : stripCat [] = [] := rfl

lemma stripCat_cons (d : List Nat) (ds : List (List Nat)) :
    stripCat (d :: ds) = d.drop 8 ++ stripCat ds := by
  simp [stripCat]

lemma splitCRLF_ne_nil (s : List Nat) : splitCRLF s ≠ [] := by
  induction s using splitCRLF.induct with
  | case1 => simp [splitCRLF]
  | case2 x => simp [splitCRLF]
  | case3 x y rest hxy ih =>
      obtain ⟨hx, hy⟩ := hxy
      subst hx; subst hy
      simp [splitCRLF]
  | case4 x y rest hxy l ls heq ih => simp [splitCRLF, hxy, heq]
  | case5 x y rest hxy heq ih => exact absurd heq ih

lemma two_le_splitCRLF (s : List Nat) (h : containsSeq crlfB s = true) :
    2 ≤ (splitCRLF s).length := by
  induction s using splitCRLF.induct with
  | case1 => exact absurd h (by decide)
  | case2 x =>
      simp [containsSeq, crlfB, toB, List.isPrefixOf] at h
  | case3 x y rest hxy ih =>
      obtain ⟨hx, hy⟩ := hxy
      subst hx; subst hy
      have hpos : 0 < (splitCRLF rest).length :=
        List.length_pos.mpr (splitCRLF_ne_nil rest)
      simp [splitCRLF]
      omega
  | case4 x y rest hxy l ls heq ih =>
      have hnp : crlfB.isPrefixOf (x :: y :: rest) = false := by
        by_contra hc
        rw [Bool.not_eq_false] at hc
        simp [crlfB, toB, List.isPrefixOf] at hc
        exact hxy ⟨hc.1.symm, hc.2.symm⟩
      rw [containsSeq, hnp, Bool.false_or] at h
      have h2 := ih h
      rw [heq] at h2
      simp [splitCRLF, hxy, heq]
      simpa using h2
  | case5 x y rest hxy heq ih => exact absurd heq (splitCRLF_ne_nil (y :: rest))

lemma isPrefixOf_eq_append (p : List Nat) :
    ∀ s : List Nat, p.isPrefixOf s = true → s = p ++ s.drop p.length := by
  induction p with
  | nil => intro s _; simp
  | cons a as ih =>
      intro s h
      cases s with
      | nil => simp [List.isPrefixOf] at h
      | cons b bs =>
          simp only [List.isPrefixOf, Bool.and_eq_true, beq_iff_eq] at h
          obtain ⟨h1, h2⟩ := h
          subst h1
          have := ih bs h2
          simp only [List.length_cons, List.drop_succ_cons, List.cons_append]
          exact congrArg (List.cons a) this

lemma crlf_of_end (s : List Nat) (h : containsSeq resultEndB s = true) :
    containsSeq crlfB s = true := by
  induction s with
  | nil => exact absurd h (by decide)
  | cons x xs ih =>
      rw [containsSeq] at h
      rcases (Bool.or_eq_true _ _).mp h with hpre | hrec
      · have heq := isPrefixOf_eq_append resultEndB _ hpre
        rw [heq]
        simp [resultEndB, toB, containsSeq, crlfB, List.isPrefixOf]
      · rw [containsSeq, ih hrec, Bool.or_true]

lemma select_ok_of_nonempty (addrs : List Addr) (key : List Nat) (h : 0 < addrs.length) :
    ∃ a, select addrs key = Except.ok a := by
  match addrs with
  | [] => simp at h
  | [a] => exact ⟨a, rfl⟩
  | a :: b :: rest =>
      exact ⟨_, by rw [select, selectBuf_cons₂ a b rest key poolNewBuf length_poolNewBuf]⟩

lemma getD1_eq_get (l : List (List Nat)) (h : 2 ≤ l.length) :
    l.getD 1 [] = l.get ⟨1, by omega⟩ := by
  match l with
  | [] => simp at h
  | [a] => simp at h
  | a :: b :: rest => rfl

lemma getLoop_done (N : Nat) :
    ∀ (ds : List (List Nat)) (acc : List Nat) (c : Nat),
    (∀ d ∈ ds, 8 ≤ d.length ∧ d.length ≤ udpBufSize) →
    0 < N → N ≤ ds.length →
    (∀ k < N, containsSeq resultEndB (acc ++ stripCat (ds.take k)) = false) →
    containsSeq resultEndB (acc ++ stripCat (ds.take N)) = true →
    getLoop ds acc c = LoopResult.done (acc ++ stripCat (ds.take N)) (c + N) := by
  induction N with
  | zero => intro ds acc c _ h0 _ _ _; omega
  | succ M ih =>
      intro ds acc c hlen _ hNle hbef hat
      match ds with
      | [] => simp at hNle
      | d :: rest =>
          have hd := hlen d (by simp)
          rw [getLoop, goSlice_datagram hd.1 hd.2]
          dsimp only
          rcases Nat.eq_zero_or_pos M with hM | hM
          · subst hM
            have hat1 : containsSeq resultEndB (acc ++ List.drop 8 d) = true := by
              simpa [stripCat_cons, stripCat_nil] using hat
            rw [if_pos hat1]
            simp [stripCat_cons, stripCat_nil]
          · have hb1 : containsSeq resultEndB (acc ++ List.drop 8 d) = false := by
              have := hbef 1 (by omega)
              simpa [stripCat_cons, stripCat_nil] using this
            rw [if_neg (by simp [hb1])]
            have hrec := ih rest (acc ++ List.drop 8 d) (c + 1)
              (fun d2 hd2 => hlen d2 (List.mem_cons_of_mem _ hd2))
              hM
              (by simp at hNle; omega)
              (fun k hk => by
                have := hbef (k + 1) (by omega)
                simpa [stripCat_cons, List.append_assoc] using this)
              (by simpa [stripCat_cons, List.append_assoc] using hat)
            rw [hrec]
            congr 1
            · simp [stripCat_cons, List.append_assoc]
            · omega

/-- C2: the UDP reassembly loop of Get strips the 8-byte header of each
datagram and accumulates the rest; it stops exactly when the accumulated
buffer first contains the END sentinel, regardless of the header's
declared datagram count (the headers are stripped unread), so when the
concatenated header-stripped payload first contains the sentinel after N
datagrams the loop performs exactly N receives, and Get returns the item
whose value is the second CRLF-separated line of the accumulated text
when that text begins with VALUE. -/
theorem get_udp_reassembly (addrs : List Addr) (key : List Nat)
    (ds : List (List Nat)) (N : Nat)
    (haddr : 0 < addrs.length)
    (hlen : ∀ d ∈ ds, 8 ≤ d.length ∧ d.length ≤ udpBufSize)
    (hN0 : 0 < N) (hNle : N ≤ ds.length)
    (hbef : ∀ k < N, containsSeq resultEndB (stripCat (ds.take k)) = false)
    (hat : containsSeq resultEndB (stripCat (ds.take N)) = true)
    (hval : valueMarkB.isPrefixOf (stripCat (ds.take N)) = true) :
    getLoop ds [] 0 = LoopResult.done (stripCat (ds.take N)) N ∧
    clientGet ⟨addrs, true⟩ ⟨true, true, ds⟩ key =
      GetOutcome.ok ⟨key, (splitCRLF (stripCat (ds.take N))).getD 1 [], 0, 0⟩ := by
  have hloop : getLoop ds [] 0 = LoopResult.done (stripCat (ds.take N)) N := by
    have := getLoop_done N ds [] 0 hlen hN0 hNle
      (fun k hk => by simpa using hbef k hk)
      (by simpa using hat)
    simpa using this
  refine ⟨hloop, ?_⟩
  obtain ⟨a0, ha0⟩ := select_ok_of_nonempty addrs key haddr
  have hlines : 2 ≤ (splitCRLF (stripCat (ds.take N))).length :=
    two_le_splitCRLF _ (crlf_of_end _ hat)
  simp only [clientGet]
  rw [ha0]
  dsimp only
  rw [hloop]
  dsimp only
  rw [parseGetResponse, if_pos hval, dif_pos hlines, getD1_eq_get _ hlines]
  simp

/-- Request frame header bytes for the witness datagrams. -/
def hdr8 : List Nat := [0, 0, 0, 1, 0, 0, 0, 0]

/-- First witness datagram: header plus the VALUE line. -/
def dg1 : List Nat := hdr8 ++ toB "VALUE k 0 1\r\n"

/-- Second witness datagram: header plus the value payload and the END
sentinel. -/
def dg2 : List Nat := hdr8 ++ toB "x\r\nEND\r\n"

/-- Witness for get_udp_reassembly: a concrete two-datagram exchange in
which the sentinel first appears after the second receive. -/
theorem get_udp_reassembly_witness :
    (0 < ([addrA, addrB] : List Addr).length ∧
      (∀ d ∈ ([dg1, dg2] : List (List Nat)), 8 ≤ d.length ∧ d.length ≤ udpBufSize) ∧
      0 < 2 ∧ 2 ≤ ([dg1, dg2] : List (List Nat)).length ∧
      (∀ k < 2, containsSeq resultEndB (stripCat ([dg1, dg2].take k)) = false) ∧
      containsSeq resultEndB (stripCat ([dg1, dg2].take 2)) = true ∧
      valueMarkB.isPrefixOf (stripCat ([dg1, dg2].take 2)) = true) ∧
    (getLoop [dg1, dg2] [] 0 = LoopResult.done (stripCat ([dg1, dg2].take 2)) 2 ∧
      clientGet ⟨[addrA, addrB], true⟩ ⟨true, true, [dg1, dg2]⟩ (toB "k") =
        GetOutcome.ok ⟨toB "k", (splitCRLF (stripCat ([dg1, dg2].take 2))).getD 1 [], 0, 0⟩) :=
  ⟨⟨by decide, by decide, by decide, by decide, by decide, by decide, by decide⟩,
    get_udp_reassembly [addrA, addrB] (toB "k") [dg1, dg2] 2 (by decide) (by decide)
      (by decide) (by decide) (by decide) (by decide) (by decide)⟩

end Gomcache
